import Mathlib

/-!
Verification development for the `casm_sky` sky-monitor engine
(`src/static/js/skyrfi.js`).  The JavaScript core is shallowly embedded:
numbers are modelled as exact rationals (`ℚ`), timestamps as integers
(milliseconds), the browser storage / network / propagator capabilities as
explicit parameters, and JavaScript exceptions as `Except` values.
-/

/-! ## JavaScript primitive helpers

`String.prototype.split`, `String.prototype.trim` and the `%` operator are
modelled structurally (over the character list of a string) so that every
definition in this file evaluates by kernel reduction or `simp`. -/

/-- JavaScript `text.split(sep)` for a one-character separator, on
character lists: splitting the empty string yields `[[]]`, a trailing
separator yields a trailing empty field. -/
def splitChars (sep : Char) : List Char → List (List Char)
  | [] => [[]]
  | c :: cs =>
    let r := splitChars sep cs
    if c = sep then [] :: r
    else (c :: r.headD []) :: r.tail

/-- JavaScript `s.split(sep)` for a one-character separator. -/
def jsSplit (s : String) (sep : Char) : List String :=
  (splitChars sep s.data).map String.mk

/-- Whitespace recognised by the model of `String.prototype.trim`. -/
def isWSp (c : Char) : Bool := c = ' ' || c = '\n' || c = '\t' || c = '\r'

/-- JavaScript `s.trim()`: strips leading and trailing whitespace. -/
def jsTrim (s : String) : String :=
  ⟨((s.data.dropWhile isWSp).reverse.dropWhile isWSp).reverse⟩

/-- JavaScript truncation toward zero (the rounding used by the `%`
operator): `trunc q = ⌊q⌋` for nonnegative `q` and `⌈q⌉` otherwise. -/
def truncQ (q : ℚ) : ℤ :=
  if 0 ≤ q then ⌊q⌋ else ⌈q⌉

/-- JavaScript remainder `x % y = x - y * trunc (x / y)` on finite numbers. -/
def jsMod (x y : ℚ) : ℚ :=
  x - y * (truncQ (x / y) : ℚ)

/-- The azimuth normalisation `(azDeg % 360 + 360) % 360` from
`getHorizonLimit` (skyrfi.js line 111). -/
def normAz (x : ℚ) : ℚ :=
  jsMod (jsMod x 360 + 360) 360

/-! ## HorizonModel (skyrfi.js lines 108–123 and `SK_STATE.horizon`)

`SK_STATE.horizon` holds two parallel arrays `az`/`alt` of numbers. -/

structure Horizon where
  az : List ℚ
  alt : List ℚ
deriving DecidableEq

/-- One step bound of the `while (l <= r)` binary-search loop of
`getHorizonLimit`.  Indices are modelled as integers (`r` reaches `-1`, `l`
reaches the array length); `(l + r) >>> 1` is floor division by two since
`0 ≤ l + r` throughout.  The loop always terminates within `length + 1`
iterations, which is the fuel `bsearch` supplies. -/
def bsearchGo (a : List ℚ) (key : ℚ) : ℕ → ℤ → ℤ → ℤ × ℤ
  | 0, l, r => (l, r)
  | fuel + 1, l, r =>
    if l ≤ r then
      let m : ℤ := (l + r) / 2
      if a.getD m.toNat 0 < key then bsearchGo a key fuel (m + 1) r
      else bsearchGo a key fuel l (m - 1)
    else (l, r)

/-- The binary search of `getHorizonLimit`: starts with `l = 0`,
`r = h.az.length - 1` and returns the final `(l, r)` pair. -/
def bsearch (a : List ℚ) (key : ℚ) : ℤ × ℤ :=
  bsearchGo a key (a.length + 1) 0 ((a.length : ℤ) - 1)

/-- Index selection after the loop (skyrfi.js lines 117–118):
`i1 = r < 0 ? az.length - 1 : r` and `i2 = l >= az.length ? 0 : l`,
wrapping around the 360°/0° seam when the insertion point falls outside
the array bounds. -/
def bracketIdx (n : ℕ) (p : ℤ × ℤ) : ℕ × ℕ :=
  (if p.2 < 0 then n - 1 else p.2.toNat,
   if (n : ℤ) ≤ p.1 then 0 else p.1.toNat)

/-- `getHorizonLimit(azDeg)` (skyrfi.js lines 108–123). -/
def getHorizonLimit (h : Horizon) (azDeg : ℚ) : ℚ :=
  if h.az.length = 0 then -5
  else
    let az := normAz azDeg
    let idx := bracketIdx h.az.length (bsearch h.az az)
    let az1 := h.az.getD idx.1 0
    let alt1 := h.alt.getD idx.1 0
    let az2 := h.az.getD idx.2 0
    let alt2 := h.alt.getD idx.2 0
    let run := jsMod (az2 - az1 + 360) 360
    if run = 0 then alt1
    else alt1 + ((alt2 - alt1) / run) * jsMod (az - az1 + 360) 360

/-- The insertion point of `key` into `a`: the length of the longest
prefix of elements strictly below `key`.  For a sorted array this is the
first index whose element is `≥ key` (or the length if none is). -/
def insertionPoint (a : List ℚ) (key : ℚ) : ℕ :=
  (a.takeWhile (fun x => decide (x < key))).length

/-! ## Correctness lemmas for the horizon lookup -/

theorem normAz_eval (x v w : ℚ) (h1 : jsMod x 360 = v)
    (h2 : jsMod (v + 360) 360 = w) : normAz x = w := by
  rw [normAz, h1, h2]

example : normAz 45 = 45 :=
  normAz_eval 45 45 45 (by norm_num [jsMod, truncQ]) (by norm_num [jsMod, truncQ])
example : normAz (-30) = 330 :=
  normAz_eval (-30) (-30) 330 (by norm_num [jsMod, truncQ])
    (by norm_num [jsMod, truncQ])
example : normAz 360 = 0 :=
  normAz_eval 360 0 0 (by norm_num [jsMod, truncQ]) (by norm_num [jsMod, truncQ])
example : bsearch [0, 90, 180, 270] 45 = (1, 0) := by norm_num [bsearch, bsearchGo]
example : getHorizonLimit ⟨[], []⟩ 17 = -5 := by norm_num [getHorizonLimit]

/-- Index-wise sortedness of an azimuth array. -/
def SortedIdx (a : List ℚ) : Prop :=
  ∀ i j : ℕ, i ≤ j → j < a.length → a.getD i 0 ≤ a.getD j 0

theorem sorted_imp_sortedIdx {a : List ℚ} (h : a.Sorted (· ≤ ·)) : SortedIdx a := by
  intro i j hij hj
  have hi : i < a.length := lt_of_le_of_lt hij hj
  rw [List.getD_eq_getElem a 0 hi, List.getD_eq_getElem a 0 hj]
  rcases Nat.lt_or_ge i j with hlt | hge
  · exact List.pairwise_iff_get.mp h ⟨i, hi⟩ ⟨j, hj⟩ hlt
  · have : i = j := le_antisymm hij hge
    subst this
    exact le_refl _

theorem bsearchGo_spec (a : List ℚ) (key : ℚ) (hs : SortedIdx a) :
    ∀ (fuel : ℕ) (l r : ℤ), 0 ≤ l → l ≤ r + 1 → r < (a.length : ℤ) →
      (r + 1 - l).toNat < fuel →
      (∀ i : ℕ, (i : ℤ) < l → a.getD i 0 < key) →
      (∀ i : ℕ, r < (i : ℤ) → i < a.length → ¬ a.getD i 0 < key) →
      (bsearchGo a key fuel l r).2 = (bsearchGo a key fuel l r).1 - 1 ∧
      0 ≤ (bsearchGo a key fuel l r).1 ∧
      (bsearchGo a key fuel l r).1 ≤ (a.length : ℤ) ∧
      (∀ i : ℕ, (i : ℤ) < (bsearchGo a key fuel l r).1 → a.getD i 0 < key) ∧
      (∀ i : ℕ, (bsearchGo a key fuel l r).1 ≤ (i : ℤ) → i < a.length →
        ¬ a.getD i 0 < key) := by
  intro fuel
  induction fuel with
  | zero =>
    intro l r _ _ _ hfuel _ _
    exact absurd hfuel (by omega)
  | succ f ih =>
    intro l r h0 h1 h2 hfuel hlow hhigh
    by_cases hlr : l ≤ r
    · have hm0 : 0 ≤ (l + r) / 2 := by omega
      have hml : l ≤ (l + r) / 2 := by omega
      have hmr : (l + r) / 2 ≤ r := by omega
      by_cases hmk : a.getD ((l + r) / 2).toNat 0 < key
      · have step : bsearchGo a key (f + 1) l r =
            bsearchGo a key f ((l + r) / 2 + 1) r := by
          simp only [bsearchGo, if_pos hlr, if_pos hmk]
        rw [step]
        refine ih ((l + r) / 2 + 1) r (by omega) (by omega) h2 (by omega) ?_ hhigh
        intro i hi
        rcases Nat.lt_or_ge i ((l + r) / 2).toNat with hcase | hcase
        · rcases Int.lt_or_le (i : ℤ) l with h | h
          · exact hlow i h
          · exact lt_of_le_of_lt
              (hs i ((l + r) / 2).toNat (by omega) (by omega)) hmk
        · have : i = ((l + r) / 2).toNat := by omega
          rw [this]
          exact hmk
      · have step : bsearchGo a key (f + 1) l r =
            bsearchGo a key f l ((l + r) / 2 - 1) := by
          simp only [bsearchGo, if_pos hlr, if_neg hmk]
        rw [step]
        refine ih l ((l + r) / 2 - 1) h0 (by omega) (by omega) (by omega) hlow ?_
        intro i hi hilen hcon
        rcases Int.lt_or_le (r : ℤ) (i : ℤ) with h | h
        · exact hhigh i h hilen hcon
        · exact hmk (lt_of_le_of_lt
            (hs ((l + r) / 2).toNat i (by omega) hilen) hcon)
    · have step : bsearchGo a key (f + 1) l r = (l, r) := by
        simp only [bsearchGo, if_neg hlr]
      rw [step]
      exact ⟨by omega, by omega, by omega, fun i hi => hlow i hi,
        fun i hi hilen => hhigh i (by omega) hilen⟩

theorem insertionPoint_eq {a : List ℚ} {key : ℚ} :
    ∀ {L : ℕ}, L ≤ a.length →
      (∀ i : ℕ, i < L → a.getD i 0 < key) →
      (∀ i : ℕ, L ≤ i → i < a.length → ¬ a.getD i 0 < key) →
      insertionPoint a key = L := by
  induction a with
  | nil =>
    intro L hL _ _
    have : L = 0 := by simpa using hL
    simp [insertionPoint, this]
  | cons x t ih =>
    intro L hL hlow hhigh
    cases L with
    | zero =>
      have hx : ¬ x < key := by
        have := hhigh 0 (Nat.le_refl 0) (by simp)
        simpa using this
      simp [insertionPoint, List.takeWhile_cons, hx]
    | succ L2 =>
      have hx : x < key := by
        have := hlow 0 (Nat.succ_pos L2)
        simpa using this
      have hrec : insertionPoint t key = L2 := by
        refine ih (by simpa using hL) ?_ ?_
        · intro i hi
          have := hlow (i + 1) (by omega)
          simpa using this
        · intro i hi hilen
          have := hhigh (i + 1) (by omega) (by simpa using hilen)
          simpa using this
      have : insertionPoint (x :: t) key = insertionPoint t key + 1 := by
        simp [insertionPoint, List.takeWhile_cons, hx]
      omega

theorem bsearch_eq_insertionPoint {a : List ℚ} {key : ℚ}
    (hs : a.Sorted (· ≤ ·)) :
    bsearch a key =
      ((insertionPoint a key : ℤ), (insertionPoint a key : ℤ) - 1) := by
  obtain ⟨h1, h2, h3, h4, h5⟩ :=
    bsearchGo_spec a key (sorted_imp_sortedIdx hs) (a.length + 1) 0
      ((a.length : ℤ) - 1) (by omega) (by omega) (by omega) (by omega)
      (fun i hi => absurd hi (by omega))
      (fun i hi hilen => absurd hilen (by omega))
  have hb : bsearch a key =
      bsearchGo a key (a.length + 1) 0 ((a.length : ℤ) - 1) := rfl
  rw [← hb] at h1 h2 h3 h4 h5
  have hL : insertionPoint a key = (bsearch a key).1.toNat := by
    refine insertionPoint_eq (by omega) ?_ ?_
    · intro i hi
      exact h4 i (by omega)
    · intro i hi hilen
      exact h5 i (by omega) hilen
  have hfst : (bsearch a key).1 = (insertionPoint a key : ℤ) := by omega
  have hsnd : (bsearch a key).2 = (insertionPoint a key : ℤ) - 1 := by omega
  exact Prod.ext hfst hsnd

theorem jsMod360_bounds (y : ℚ) : -360 < jsMod y 360 ∧ jsMod y 360 < 360 := by
  unfold jsMod truncQ
  by_cases h : 0 ≤ y / 360
  · rw [if_pos h]
    have h1 : ((⌊y / 360⌋ : ℤ) : ℚ) ≤ y / 360 := Int.floor_le _
    have h2 : y / 360 < ((⌊y / 360⌋ : ℤ) : ℚ) + 1 := Int.lt_floor_add_one _
    constructor <;> linarith
  · rw [if_neg h]
    have h1 : y / 360 ≤ ((⌈y / 360⌉ : ℤ) : ℚ) := Int.le_ceil _
    have h2 : ((⌈y / 360⌉ : ℤ) : ℚ) < y / 360 + 1 := Int.ceil_lt_add_one _
    constructor <;> linarith

theorem jsMod360_nonneg {y : ℚ} (hy : 0 ≤ y) : 0 ≤ jsMod y 360 := by
  unfold jsMod truncQ
  have h : 0 ≤ y / 360 := by positivity
  rw [if_pos h]
  have h1 : ((⌊y / 360⌋ : ℤ) : ℚ) ≤ y / 360 := Int.floor_le _
  linarith

/-- The normalised azimuth always lands in `[0, 360)`, for every rational
query, negative and `≥ 360` included. -/
theorem normAz_bounds (x : ℚ) : 0 ≤ normAz x ∧ normAz x < 360 := by
  have hb := jsMod360_bounds x
  have hnn : 0 ≤ jsMod x 360 + 360 := by linarith [hb.1]
  have h2 := jsMod360_bounds (jsMod x 360 + 360)
  have h3 := jsMod360_nonneg hnn
  rw [normAz]
  exact ⟨h3, h2.2⟩

/-- For a sorted profile, the wrap-around bracket selection in terms of the
abstract insertion point. -/
theorem bracketIdx_eq {a : List ℚ} {key : ℚ} (hs : a.Sorted (· ≤ ·)) :
    bracketIdx a.length (bsearch a key) =
      (if insertionPoint a key = 0 then a.length - 1
        else insertionPoint a key - 1,
       if a.length ≤ insertionPoint a key then 0 else insertionPoint a key) := by
  rw [bsearch_eq_insertionPoint hs]
  simp only [bracketIdx, Prod.mk.injEq]
  constructor
  · split_ifs <;> omega
  · split_ifs <;> omega

/-- When the two bracketing samples coincide in azimuth, the circular run
is zero and the lookup returns the lower sample's elevation directly. -/
theorem getHorizonLimit_coincide (h : Horizon) (azDeg : ℚ)
    (hne : ¬ h.az.length = 0)
    (heq : h.az.getD (bracketIdx h.az.length (bsearch h.az (normAz azDeg))).2 0
         = h.az.getD (bracketIdx h.az.length (bsearch h.az (normAz azDeg))).1 0) :
    getHorizonLimit h azDeg =
      h.alt.getD (bracketIdx h.az.length (bsearch h.az (normAz azDeg))).1 0 := by
  have hz : jsMod 360 360 = 0 := by norm_num [jsMod, truncQ]
  rw [getHorizonLimit, if_neg hne]
  simp only [heq]
  rw [show ∀ z w : ℚ, z - z + w = w from fun z w => by ring, hz]
  simp

theorem getHorizonLimit_flat_demo :
    getHorizonLimit ⟨[0, 90, 180, 270], [2, 2, 2, 2]⟩ 45 = 2 := by
  have hn : normAz 45 = 45 :=
    normAz_eval 45 45 45 (by norm_num [jsMod, truncQ]) (by norm_num [jsMod, truncQ])
  have hb : bsearch [0, 90, 180, 270] 45 = (1, 0) := by norm_num [bsearch, bsearchGo]
  have hrun : jsMod 450 360 = 90 := by norm_num [jsMod, truncQ]
  have hoff : jsMod 405 360 = 45 := by norm_num [jsMod, truncQ]
  rw [getHorizonLimit]
  norm_num [hn, hb, bracketIdx, hrun, hoff]

/-- Claim C1: for every loaded horizon profile with at least one sample and
every query azimuth (negative values and values at or above 360 included),
`getHorizonLimit` normalises the query into `[0, 360)`; the binary search
returns the insertion point of the normalised azimuth into the sorted
azimuth array (with the final `r = l - 1`); the bracketing pair wraps
across the 360°/0° seam exactly when the insertion point falls outside the
array bounds; when the two bracketing samples coincide in azimuth the
lookup returns the lower sample's elevation directly, so no division by
zero occurs; and on the profile {(0°,2°),(90°,2°),(180°,2°),(270°,2°)} the
value at azimuth 45° is 2°. -/
theorem claim1_occlusion_elevation :
    (∀ x : ℚ, 0 ≤ normAz x ∧ normAz x < 360) ∧
    (∀ (a : List ℚ) (key : ℚ), a.Sorted (· ≤ ·) →
      bsearch a key =
        ((insertionPoint a key : ℤ), (insertionPoint a key : ℤ) - 1)) ∧
    (∀ (a : List ℚ) (key : ℚ), a.Sorted (· ≤ ·) →
      bracketIdx a.length (bsearch a key) =
        (if insertionPoint a key = 0 then a.length - 1
          else insertionPoint a key - 1,
         if a.length ≤ insertionPoint a key then 0
          else insertionPoint a key)) ∧
    (∀ (h : Horizon) (azDeg : ℚ), ¬ h.az.length = 0 →
      h.az.getD (bracketIdx h.az.length (bsearch h.az (normAz azDeg))).2 0 =
        h.az.getD (bracketIdx h.az.length (bsearch h.az (normAz azDeg))).1 0 →
      getHorizonLimit h azDeg =
        h.alt.getD (bracketIdx h.az.length (bsearch h.az (normAz azDeg))).1 0) ∧
    getHorizonLimit ⟨[0, 90, 180, 270], [2, 2, 2, 2]⟩ 45 = 2 :=
  ⟨normAz_bounds,
   fun _ _ hs => bsearch_eq_insertionPoint hs,
   fun _ _ hs => bracketIdx_eq hs,
   getHorizonLimit_coincide,
   getHorizonLimit_flat_demo⟩

theorem claim1_occlusion_elevation_witness :
    bsearch [(1 : ℚ), 3] 2 =
      ((insertionPoint [(1 : ℚ), 3] 2 : ℤ),
       (insertionPoint [(1 : ℚ), 3] 2 : ℤ) - 1) ∧
    getHorizonLimit ⟨[(10 : ℚ), 10], [4, 7]⟩ 5 =
      ([4, 7] : List ℚ).getD
        (bracketIdx ([(10 : ℚ), 10] : List ℚ).length
          (bsearch [(10 : ℚ), 10] (normAz 5))).1 0 := by
  constructor
  · exact claim1_occlusion_elevation.2.1 [1, 3] 2
      (by simp [List.sorted_cons])
  · refine claim1_occlusion_elevation.2.2.2.1 ⟨[10, 10], [4, 7]⟩ 5 (by simp) ?_
    have hn : normAz 5 = 5 :=
      normAz_eval 5 5 5 (by norm_num [jsMod, truncQ]) (by norm_num [jsMod, truncQ])
    rw [hn]
    norm_num [bsearch, bsearchGo, bracketIdx]

/-! ## TimedCache (`cachedFetchText` / `cachedFetchJson`, skyrfi.js lines 69–97) -/

/-- A raw `localStorage` slot for a given key: absent (`getItem` returns
`null`), present but not parseable as a `{ts, data}` envelope (the
`JSON.parse` throw is caught by the read path), or a valid envelope. -/
inductive CacheSlot (α : Type) where
  | missing : CacheSlot α
  | corrupt : CacheSlot α
  | valid (ts : ℤ) (data : α) : CacheSlot α
deriving DecidableEq

def CacheStore (α : Type) : Type := String → CacheSlot α

/-- Reading one slot: the payload if the envelope parses and its age is
below `ttl`, absent otherwise. -/
def slotRead {α : Type} (slot : CacheSlot α) (ttl now : ℤ) : Option α :=
  match slot with
  | CacheSlot.valid ts data => if now - ts < ttl then some data else none
  | _ => none

/-- The cache-read prologue of `cachedFetchText`/`cachedFetchJson` (lines
71–77 / 86–92): return the stored payload if the envelope parses and its
age is below `ttl`; a missing or corrupt entry, or a stale timestamp,
reports absent.  Storage and parse errors are caught locally and never
propagate to the caller. -/
def cacheRead {α : Type} (store : CacheStore α) (key : String) (ttl now : ℤ) :
    Option α :=
  slotRead (store key) ttl now

/-- The cache-write epilogue (lines 80 / 95): store the payload under the
current timestamp. -/
def cacheWrite {α : Type} (store : CacheStore α) (key : String) (now : ℤ)
    (data : α) : CacheStore α :=
  fun k => if k = key then CacheSlot.valid now data else store k

/-- `cachedFetchText`/`cachedFetchJson` (lines 69–97), generic over the
payload type (text vs parsed JSON).  The network is an explicit capability:
`net = none` models a failed `fetch`, whose rejection propagates to the
caller (result `none`); on a cache hit the network is never consulted. -/
def cachedFetch {α : Type} (store : CacheStore α) (key : String) (ttl now : ℤ)
    (net : Option α) : Option (α × CacheStore α) :=
  match cacheRead store key ttl now with
  | some data => some (data, store)
  | none =>
    match net with
    | none => none
    | some payload => some (payload, cacheWrite store key now payload)

/-- Claim C4: a write immediately followed by a read with any positive ttl
returns the payload unchanged; a read of an entry whose age is at least the
ttl reports absent; a missing or corrupt entry reads as absent; and a
corrupt entry makes the whole fetch behave exactly as if the entry were
missing — the storage-layer error is never raised to the caller. -/
theorem claim4_cache_roundtrip :
    (∀ (α : Type) (store : CacheStore α) (k : String) (v : α) (ttl now : ℤ),
      0 < ttl → cacheRead (cacheWrite store k now v) k ttl now = some v) ∧
    (∀ (α : Type) (store : CacheStore α) (k : String) (ttl now ts : ℤ) (v : α),
      store k = CacheSlot.valid ts v → ttl ≤ now - ts →
      cacheRead store k ttl now = none) ∧
    (∀ (α : Type) (store : CacheStore α) (k : String) (ttl now : ℤ),
      store k = CacheSlot.missing ∨ store k = CacheSlot.corrupt →
      cacheRead store k ttl now = none) ∧
    (∀ (α : Type) (store : CacheStore α) (k : String) (ttl now : ℤ)
      (net : Option α), store k = CacheSlot.corrupt →
      cachedFetch store k ttl now net =
        cachedFetch (fun q => if q = k then CacheSlot.missing else store q)
          k ttl now net) := by
  refine ⟨?_, ?_, ?_, ?_⟩
  · intro α store k v ttl now h
    rw [cacheRead]
    have hkk : (cacheWrite store k now v) k = CacheSlot.valid now v := by
      rw [cacheWrite]
      exact if_pos rfl
    rw [hkk]
    simp only [slotRead]
    rw [if_pos (by omega)]
  · intro α store k ttl now ts v hk hage
    rw [cacheRead, hk]
    simp only [slotRead]
    rw [if_neg (by omega)]
  · intro α store k ttl now hk
    rcases hk with hk | hk <;> rw [cacheRead, hk] <;> rfl
  · intro α store k ttl now net hk
    have hr1 : cacheRead store k ttl now = none := by
      rw [cacheRead, hk]
      rfl
    have hr2 : cacheRead
        (fun q => if q = k then CacheSlot.missing else store q) k ttl now =
        none := by
      rw [cacheRead]
      simp only [if_pos rfl]
      rfl
    cases net with
    | none => simp [cachedFetch, hr1, hr2]
    | some payload =>
      have hw : cacheWrite store k now payload =
          cacheWrite (fun q => if q = k then CacheSlot.missing else store q)
            k now payload := by
        funext q
        rw [cacheWrite, cacheWrite]
        by_cases hq : q = k
        · rw [if_pos hq, if_pos hq]
        · rw [if_neg hq, if_neg hq, if_neg hq]
      simp [cachedFetch, hr1, hr2, hw]

theorem claim4_cache_roundtrip_witness :
    cacheRead
      (cacheWrite (fun _ => CacheSlot.missing : CacheStore String) "k" 100 "v")
      "k" 5 100 = some "v" ∧
    cacheRead (fun _ => CacheSlot.valid 0 "v" : CacheStore String)
      "k" 5 100 = none ∧
    cacheRead (fun _ => CacheSlot.corrupt : CacheStore String)
      "k" 5 100 = none ∧
    cachedFetch (fun _ => CacheSlot.corrupt : CacheStore String)
      "k" 5 100 (some "w") =
      cachedFetch (fun q => if q = "k" then CacheSlot.missing
        else CacheSlot.corrupt) "k" 5 100 (some "w") :=
  ⟨claim4_cache_roundtrip.1 String _ "k" "v" 5 100 (by norm_num),
   claim4_cache_roundtrip.2.1 String _ "k" 5 100 0 "v" rfl (by norm_num),
   claim4_cache_roundtrip.2.2.1 String _ "k" 5 100 (Or.inr rfl),
   claim4_cache_roundtrip.2.2.2 String _ "k" 5 100 (some "w") rfl⟩

/-! ## TrackedAircraft state and the aircraft fetch (`fetchPlanes`,
skyrfi.js lines 171–197) -/

structure Plane where
  hex : String
  callsign : String
  lat : ℚ
  lon : ℚ
  alt_ft : ℚ
  last_update : ℤ
deriving DecidableEq

/-- `SK_STATE.planes`: an object keyed by hex id. -/
def PlanesMap : Type := String → Option Plane

/-- One aircraft record of the feed snapshot (`data.ac[i]`); absent JSON
fields are `none`. -/
structure AcRecord where
  hex : String
  flight : Option String
  r : Option String
  lat : Option ℚ
  lon : Option ℚ
  alt_geom : Option ℚ
  alt_baro : Option ℚ
deriving DecidableEq

/-- JavaScript truthiness of a possibly-absent number: `undefined`, `null`
and `0` are all falsy. -/
def truthyNum (o : Option ℚ) : Bool :=
  match o with
  | none => false
  | some x => decide (x ≠ 0)

/-- JavaScript truthiness of a possibly-absent string: `undefined` and the
empty string are falsy. -/
def truthyStr (o : Option String) : Bool :=
  match o with
  | none => false
  | some s => decide (s ≠ "")

/-- `p.flight ? p.flight.trim() : (p.r || p.hex)` (skyrfi.js line 185). -/
def callsignOf (p : AcRecord) : String :=
  if truthyStr p.flight then jsTrim (p.flight.getD "")
  else if truthyStr p.r then p.r.getD "" else p.hex

/-- `p.alt_geom || p.alt_baro || 0` (skyrfi.js line 188). -/
def altOf (p : AcRecord) : ℚ :=
  if truthyNum p.alt_geom then p.alt_geom.getD 0
  else if truthyNum p.alt_baro then p.alt_baro.getD 0 else 0

/-- The TrackedAircraft record upserted for a snapshot record
(skyrfi.js lines 183–190). -/
def mkPlane (p : AcRecord) (now : ℤ) : Plane :=
  { hex := p.hex, callsign := callsignOf p, lat := p.lat.getD 0,
    lon := p.lon.getD 0, alt_ft := altOf p, last_update := now }

def upsertPlane (m : PlanesMap) (k : String) (v : Plane) : PlanesMap :=
  fun q => if q = k then some v else m q

/-- Processing of one snapshot record inside `data.ac.forEach`
(skyrfi.js lines 179–191): a record with falsy latitude or longitude is
skipped before the hex is marked valid or any state is touched; otherwise
the aircraft is upserted under its hex id and the hex recorded as valid. -/
def processAc (now : ℤ) (acc : PlanesMap × List String) (p : AcRecord) :
    PlanesMap × List String :=
  if truthyNum p.lat && truthyNum p.lon then
    (upsertPlane acc.1 p.hex (mkPlane p now), acc.2 ++ [p.hex])
  else acc

/-- The grace-window cleanup (skyrfi.js lines 193–195): an entry absent
from the current snapshot is deleted only when it is also strictly older
than 15000 ms. -/
def cleanupEntry (inSnapshot : Bool) (now : ℤ) : Option Plane → Option Plane
  | none => none
  | some p =>
    if inSnapshot = false ∧ 15000 < now - p.last_update then none else some p

def cleanupPlanes (m : PlanesMap) (validHexes : List String) (now : ℤ) :
    PlanesMap :=
  fun k => cleanupEntry (validHexes.contains k) now (m k)

/-- The body of `fetchPlanes` after a successful feed response
(skyrfi.js lines 176–195): `data.ac` may be absent (`none`), in which case
no upsert happens but the cleanup still runs with an empty valid-hex set. -/
def applySnapshot (m : PlanesMap) (ac : Option (List AcRecord)) (now : ℤ) :
    PlanesMap :=
  let r := (ac.getD []).foldl (processAc now) (m, [])
  cleanupPlanes r.1 r.2 now

/-- Claim C5 counterexample: at the exact boundary
`now − last_update = 15000` the cleanup keeps the entry (the code deletes
only strictly beyond the window), while the claim says it is absent. -/
theorem claim5_grace_window_counterexample :
    cleanupPlanes
      (fun k => if k = "a" then some ⟨"a", "A", 1, 1, 0, 0⟩ else none)
      [] 15000 "a" = some ⟨"a", "A", 1, 1, 0, 0⟩ := by
  simp only [cleanupPlanes]
  norm_num [cleanupEntry]

/-- Claim C5 (amended): for an aircraft absent from the current snapshot,
the cleanup retains it while `now − last_update ≤ 15000` ms and removes it
once `now − last_update > 15000` ms; in particular at the exact boundary
`now − last_update = 15000` ms the entry is still present. -/
theorem claim5_grace_window :
    ∀ (m : PlanesMap) (hexes : List String) (now : ℤ) (k : String) (p : Plane),
      m k = some p → hexes.contains k = false →
      (cleanupPlanes m hexes now k =
        if 15000 < now - p.last_update then none else some p) ∧
      (now - p.last_update = 15000 → cleanupPlanes m hexes now k = some p) := by
  intro m hexes now k p hm hc
  have hbase : cleanupPlanes m hexes now k =
      if 15000 < now - p.last_update then none else some p := by
    simp only [cleanupPlanes, hm, hc, cleanupEntry]
    simp
  refine ⟨hbase, ?_⟩
  intro hb
  rw [hbase, if_neg (by omega)]

theorem claim5_grace_window_witness :
    cleanupPlanes
      (fun k => if k = "b" then some ⟨"b", "B", 2, 2, 0, 0⟩ else none)
      [] 20000 "b" = none := by
  have h := (claim5_grace_window
    (fun k => if k = "b" then some ⟨"b", "B", 2, 2, 0, 0⟩ else none)
    [] 20000 "b" ⟨"b", "B", 2, 2, 0, 0⟩ (by norm_num) rfl).1
  rw [h, if_pos (by norm_num)]

/-- Claim C6: a snapshot record with truthy (valid) coordinates upserts a
TrackedAircraft keyed by its hex id, with the live callsign preferred and
the registration (falling back to the hex id) used when the callsign is
blank; a record with missing latitude is ignored entirely — no entry is
created or updated for it and its hex is not marked as seen. -/
theorem claim6_snapshot_upsert :
    (∀ (now : ℤ) (acc : PlanesMap × List String) (p : AcRecord),
      truthyNum p.lat = true → truthyNum p.lon = true →
      processAc now acc p =
        (upsertPlane acc.1 p.hex (mkPlane p now), acc.2 ++ [p.hex])) ∧
    (∀ (now : ℤ) (p : AcRecord), truthyStr p.flight = true →
      (mkPlane p now).callsign = jsTrim (p.flight.getD "")) ∧
    (∀ (now : ℤ) (p : AcRecord), truthyStr p.flight = false →
      (mkPlane p now).callsign =
        (if truthyStr p.r then p.r.getD "" else p.hex)) ∧
    (∀ (now : ℤ) (acc : PlanesMap × List String) (p : AcRecord),
      p.lat = none → processAc now acc p = acc) := by
  refine ⟨?_, ?_, ?_, ?_⟩
  · intro now acc p hlat hlon
    rw [processAc, if_pos (by rw [hlat, hlon]; rfl)]
  · intro now p hf
    simp only [mkPlane, callsignOf, hf, if_pos]
  · intro now p hf
    simp only [mkPlane, callsignOf, hf]
    simp
  · intro now acc p hlat
    rw [processAc, if_neg (by rw [hlat]; simp [truthyNum])]

theorem claim6_snapshot_upsert_witness :
    processAc 7 ((fun _ => none : PlanesMap), [])
      ⟨"h1", some "FL1 ", some "reg", some 3, some 4, some 100, none⟩ =
      (upsertPlane (fun _ => none) "h1"
        (mkPlane ⟨"h1", some "FL1 ", some "reg", some 3, some 4, some 100, none⟩ 7),
       [] ++ ["h1"]) ∧
    (mkPlane ⟨"h1", some "FL1 ", some "reg", some 3, some 4, some 100, none⟩
      7).callsign = jsTrim ((some "FL1 ").getD "") ∧
    (mkPlane ⟨"h2", none, some "reg", some 3, some 4, none, none⟩ 7).callsign =
      (if truthyStr (some "reg") then (some "reg").getD "" else "h2") ∧
    processAc 7 ((fun _ => none : PlanesMap), [])
      ⟨"h3", none, none, none, some 4, none, none⟩ =
      ((fun _ => none : PlanesMap), []) :=
  ⟨claim6_snapshot_upsert.1 7 ((fun _ => none), [])
      ⟨"h1", some "FL1 ", some "reg", some 3, some 4, some 100, none⟩
      (by norm_num [truthyNum]) (by norm_num [truthyNum]),
   claim6_snapshot_upsert.2.1 7
      ⟨"h1", some "FL1 ", some "reg", some 3, some 4, some 100, none⟩
      (by decide),
   claim6_snapshot_upsert.2.2.1 7
      ⟨"h2", none, some "reg", some 3, some 4, none, none⟩ rfl,
   claim6_snapshot_upsert.2.2.2 7 ((fun _ => none), [])
      ⟨"h3", none, none, none, some 4, none, none⟩ rfl⟩

/-- Claim C10: the coordinate guard `!p.lat || !p.lon` also rejects a
record whose latitude or longitude equals 0 (JavaScript treats the number
0 as falsy), so such an aircraft is silently dropped exactly like one with
missing coordinates: nothing is upserted and its hex is not marked valid. -/
theorem claim10_zero_coordinates :
    (∀ (now : ℤ) (acc : PlanesMap × List String) (p : AcRecord),
      p.lat = some 0 ∨ p.lon = some 0 → processAc now acc p = acc) ∧
    (∀ (m : PlanesMap) (now : ℤ) (p : AcRecord),
      p.lat = some 0 ∨ p.lon = some 0 →
      applySnapshot m (some [p]) now = cleanupPlanes m [] now) := by
  have hstep : ∀ (now : ℤ) (acc : PlanesMap × List String) (p : AcRecord),
      p.lat = some 0 ∨ p.lon = some 0 → processAc now acc p = acc := by
    intro now acc p hz
    rcases hz with hz | hz
    · rw [processAc, if_neg (by rw [hz]; simp [truthyNum])]
    · rw [processAc, if_neg (by rw [hz]; simp [truthyNum])]
  refine ⟨hstep, ?_⟩
  intro m now p hz
  rw [applySnapshot]
  simp only [Option.getD, List.foldl_cons, List.foldl_nil]
  rw [hstep now (m, []) p hz]

theorem claim10_zero_coordinates_witness :
    processAc 7 ((fun _ => none : PlanesMap), [])
      ⟨"h4", some "FL", some "r", some 0, some 4, none, none⟩ =
      ((fun _ => none : PlanesMap), []) ∧
    applySnapshot (fun _ => none)
      (some [⟨"h5", some "FL", some "r", some 3, some 0, none, none⟩]) 7 =
      cleanupPlanes (fun _ => none) [] 7 :=
  ⟨claim10_zero_coordinates.1 7 ((fun _ => none), [])
      ⟨"h4", some "FL", some "r", some 0, some 4, none, none⟩ (Or.inl rfl),
   claim10_zero_coordinates.2 (fun _ => none)
      7 ⟨"h5", some "FL", some "r", some 3, some 0, none, none⟩ (Or.inr rfl)⟩

/-! ## VisibilityEngine (`updateMathLoop`, skyrfi.js lines 302–352)

The propagation pipeline (`satellite.propagate`, `eciToEcf`,
`ecfToLookAngles`, `geodeticToEcf`) is an external capability; the model
takes the resulting observer-relative look angle — already converted to
degrees at the boundary — as input: `(azimuth°, elevation°, range)`. -/

/-- One per-tick visible object pushed to the render lists. -/
structure VisObj where
  name : String
  az : ℚ
  el : ℚ
  dist : ℚ
  group : String
deriving DecidableEq

/-- An orbital object at a tick: name/group from the catalog record and
the propagated look angle, `none` when propagation yields no position
(`!pv.position`, skyrfi.js line 325). -/
structure SatTick where
  name : String
  group : String
  look : Option (ℚ × ℚ × ℚ)
deriving DecidableEq

/-- The satellite branch of `updateMathLoop` (skyrfi.js lines 323–333) for
one record, acting on the accumulated `(visSats, blockSats)`. -/
def satStep (h : Horizon) (acc : List VisObj × ℕ) (s : SatTick) :
    List VisObj × ℕ :=
  match s.look with
  | none => acc
  | some (az, el, dist) =>
    if el > getHorizonLimit h az then
      (acc.1 ++ [⟨s.name, az, el, dist, s.group⟩], acc.2)
    else if el > -10 then (acc.1, acc.2 + 1)
    else acc

def classifySats (h : Horizon) (sats : List SatTick) : List VisObj × ℕ :=
  sats.foldl (satStep h) ([], 0)

/-- The aircraft branch of `updateMathLoop` (skyrfi.js lines 335–344) for
one tracked aircraft, with the external geodetic→look-angle conversion
supplied as `look`. -/
def planeStep (h : Horizon) (look : Plane → ℚ × ℚ × ℚ)
    (acc : List VisObj × ℕ) (p : Plane) : List VisObj × ℕ :=
  if (look p).2.1 > getHorizonLimit h (look p).1 - 1/2 then
    (acc.1 ++ [⟨p.callsign, (look p).1, (look p).2.1, (look p).2.2,
      "Aircraft"⟩], acc.2)
  else (acc.1, acc.2 + 1)

def classifyPlanes (h : Horizon) (look : Plane → ℚ × ℚ × ℚ)
    (ps : List Plane) : List VisObj × ℕ :=
  ps.foldl (planeStep h look) ([], 0)

/-- Claim C7: each successfully propagated orbital object lands in exactly
one of three buckets — appended to the visible list when its elevation
exceeds the occlusion elevation at its azimuth, counted as blocked when it
is not visible but its elevation exceeds −10°, and dropped from both
otherwise; an object whose propagation yields no position is skipped
silently. -/
theorem claim7_satellite_classification :
    ∀ (h : Horizon) (acc : List VisObj × ℕ) (s : SatTick),
      (s.look = none → satStep h acc s = acc) ∧
      (∀ az el dist : ℚ, s.look = some (az, el, dist) →
        (getHorizonLimit h az < el →
          satStep h acc s = (acc.1 ++ [⟨s.name, az, el, dist, s.group⟩], acc.2)) ∧
        (¬ getHorizonLimit h az < el → (-10 : ℚ) < el →
          satStep h acc s = (acc.1, acc.2 + 1)) ∧
        (¬ getHorizonLimit h az < el → ¬ (-10 : ℚ) < el →
          satStep h acc s = acc)) := by
  intro h acc s
  constructor
  · intro hl
    rw [satStep, hl]
  · intro az el dist hl
    refine ⟨?_, ?_, ?_⟩
    · intro hvis
      rw [satStep, hl]
      simp only [gt_iff_lt, if_pos hvis]
    · intro hvis hnear
      rw [satStep, hl]
      simp only [gt_iff_lt, if_neg hvis, if_pos hnear]
    · intro hvis hnear
      rw [satStep, hl]
      simp only [gt_iff_lt, if_neg hvis, if_neg hnear]

theorem claim7_satellite_classification_witness :
    satStep ⟨[], []⟩ ([], 0) ⟨"SAT-A", "OTHER", none⟩ = ([], 0) ∧
    satStep ⟨[], []⟩ ([], 0) ⟨"SAT-B", "OTHER", some (45, 10, 500)⟩ =
      ([] ++ [⟨"SAT-B", 45, 10, 500, "OTHER"⟩], 0) ∧
    satStep ⟨[], []⟩ ([], 0) ⟨"SAT-C", "OTHER", some (45, -7, 500)⟩ = ([], 0 + 1) ∧
    satStep ⟨[], []⟩ ([], 0) ⟨"SAT-D", "OTHER", some (45, -20, 500)⟩ = ([], 0) := by
  have hlim : getHorizonLimit ⟨[], []⟩ 45 = -5 := by norm_num [getHorizonLimit]
  refine ⟨(claim7_satellite_classification ⟨[], []⟩ ([], 0)
      ⟨"SAT-A", "OTHER", none⟩).1 rfl, ?_, ?_, ?_⟩
  · exact ((claim7_satellite_classification ⟨[], []⟩ ([], 0)
      ⟨"SAT-B", "OTHER", some (45, 10, 500)⟩).2 45 10 500 rfl).1
      (by rw [hlim]; norm_num)
  · exact ((claim7_satellite_classification ⟨[], []⟩ ([], 0)
      ⟨"SAT-C", "OTHER", some (45, -7, 500)⟩).2 45 (-7) 500 rfl).2.1
      (by rw [hlim]; norm_num) (by norm_num)
  · exact ((claim7_satellite_classification ⟨[], []⟩ ([], 0)
      ⟨"SAT-D", "OTHER", some (45, -20, 500)⟩).2 45 (-20) 500 rfl).2.2
      (by rw [hlim]; norm_num) (by norm_num)

theorem classifyPlanes_total (h : Horizon) (look : Plane → ℚ × ℚ × ℚ) :
    ∀ (ps : List Plane) (acc : List VisObj × ℕ),
      (ps.foldl (planeStep h look) acc).1.length +
        (ps.foldl (planeStep h look) acc).2 =
      acc.1.length + acc.2 + ps.length := by
  intro ps
  induction ps with
  | nil => intro acc; simp
  | cons p t ih =>
    intro acc
    rw [List.foldl_cons, ih]
    have : (planeStep h look acc p).1.length + (planeStep h look acc p).2 =
        acc.1.length + acc.2 + 1 := by
      rw [planeStep]
      by_cases hc : (look p).2.1 > getHorizonLimit h (look p).1 - 1/2
      · rw [if_pos hc]
        simp
        omega
      · rw [if_neg hc]
        simp
        omega
    simp only [List.length_cons]
    omega

/-- Claim C8: a tracked aircraft is placed in the visible list exactly when
its elevation exceeds the occlusion elevation at its azimuth minus the 0.5°
margin, and is counted as blocked otherwise; there is no third tier, so
visible-list length plus blocked count equals the number of aircraft
processed. -/
theorem claim8_aircraft_classification :
    ∀ (h : Horizon) (look : Plane → ℚ × ℚ × ℚ),
      (∀ (acc : List VisObj × ℕ) (p : Plane),
        (getHorizonLimit h (look p).1 - 1/2 < (look p).2.1 →
          planeStep h look acc p =
            (acc.1 ++ [⟨p.callsign, (look p).1, (look p).2.1, (look p).2.2,
              "Aircraft"⟩], acc.2)) ∧
        (¬ getHorizonLimit h (look p).1 - 1/2 < (look p).2.1 →
          planeStep h look acc p = (acc.1, acc.2 + 1))) ∧
      (∀ ps : List Plane,
        (classifyPlanes h look ps).1.length + (classifyPlanes h look ps).2 =
          ps.length) := by
  intro h look
  constructor
  · intro acc p
    constructor
    · intro hvis
      rw [planeStep]
      simp only [gt_iff_lt, if_pos hvis]
    · intro hvis
      rw [planeStep]
      simp only [gt_iff_lt, if_neg hvis]
  · intro ps
    have := classifyPlanes_total h look ps ([], 0)
    simpa [classifyPlanes] using this

theorem claim8_aircraft_classification_witness :
    planeStep ⟨[], []⟩ (fun _ => (45, 10, 9)) ([], 0) ⟨"b", "B", 2, 2, 0, 0⟩ =
      ([] ++ [⟨"B", 45, 10, 9, "Aircraft"⟩], 0) ∧
    planeStep ⟨[], []⟩ (fun _ => (45, -9, 9)) ([], 0) ⟨"b", "B", 2, 2, 0, 0⟩ =
      ([], 0 + 1) := by
  have hlim : getHorizonLimit ⟨[], []⟩ 45 = -5 := by norm_num [getHorizonLimit]
  constructor
  · exact ((claim8_aircraft_classification ⟨[], []⟩ (fun _ => (45, 10, 9))).1
      ([], 0) ⟨"b", "B", 2, 2, 0, 0⟩).1 (by rw [hlim]; norm_num)
  · exact ((claim8_aircraft_classification ⟨[], []⟩ (fun _ => (45, -9, 9))).1
      ([], 0) ⟨"b", "B", 2, 2, 0, 0⟩).2 (by rw [hlim]; norm_num)

/-! ## Orbital catalog fetch (`fetchTLEs`, skyrfi.js lines 155–169) -/

def startsWithChars : List Char → List Char → Bool
  | _, [] => true
  | [], _ :: _ => false
  | a :: as, b :: bs => a == b && startsWithChars as bs

def includesChars : List Char → List Char → Bool
  | [], pat => pat.isEmpty
  | c :: t, pat => startsWithChars (c :: t) pat || includesChars t pat

/-- JavaScript `name.includes(pat)`. -/
def strIncludes (s pat : String) : Bool :=
  includesChars s.data pat.data

/-- `getGroup(name)` (skyrfi.js lines 100–106): category by substring
match against the fixed constellation name fragments, catch-all `OTHER`. -/
def getGroup (name : String) : String :=
  if strIncludes name "STARLINK" then "STARLINK"
  else if strIncludes name "MUOS" then "MUOS"
  else if strIncludes name "GPS" then "GPS"
  else if strIncludes name "ONEWEB" then "ONEWEB"
  else "OTHER"

example : getGroup "STARLINK-1234" = "STARLINK" := by decide
example : getGroup "ISS (ZARYA)" = "OTHER" := by decide

/-- A catalog record: `satellite.twoline2satrec` is an external capability
modelled as the opaque propagator handle carrying its two (trimmed)
element lines; `fetchTLEs` then sets `name` and `group` on the returned
record (skyrfi.js lines 162–164). -/
structure SatRec where
  line1 : String
  line2 : String
  name : String
  group : String
deriving DecidableEq

def mkSatRec (nameLine l1 l2 : String) : SatRec :=
  ⟨jsTrim l1, jsTrim l2, jsTrim nameLine, getGroup (jsTrim nameLine)⟩

/-- The catalog parse loop (skyrfi.js lines 159–167): `SK_STATE.satRecords`
is cleared before the loop and records are pushed one at a time in steps of
three lines; a blank (falsy) name line skips the whole triplet.  Accessing
a missing element line (`lines[i+1]`/`lines[i+2]` past the end of the
array) makes `.trim()` throw a `TypeError`, which aborts the loop:
`Except.error` carries the records pushed so far to the surrounding
`catch`. -/
def tleChunks : List String → List SatRec → Except (List SatRec) (List SatRec)
  | [], acc => Except.ok acc
  | [n], acc => if n = "" then Except.ok acc else Except.error acc
  | [n, _], acc => if n = "" then Except.ok acc else Except.error acc
  | n :: l1 :: l2 :: rest, acc =>
    if n = "" then tleChunks rest acc
    else tleChunks rest (acc ++ [mkSatRec n l1 l2])

/-- `fetchTLEs` (skyrfi.js lines 155–169) as a transformer of
`SK_STATE.satRecords`: `net = none` models a failed fetch (the `catch`
leaves the previous catalog in place); on a response the loop runs on the
cleared catalog, and a `TypeError` thrown mid-parse is caught with the
partially rebuilt catalog left in place. -/
def fetchTLEs (prev : List SatRec) (net : Option String) : List SatRec :=
  match net with
  | none => prev
  | some text =>
    match tleChunks (jsSplit text '\n') [] with
    | Except.ok recs => recs
    | Except.error recs => recs

/-- The records of the well-formed triplets of a catalog: a nonblank name
line with both element lines present. -/
def wellFormedRecs : List String → List SatRec
  | [] => []
  | [_] => []
  | [_, _] => []
  | n :: l1 :: l2 :: rest =>
    (if n = "" then [] else [mkSatRec n l1 l2]) ++ wellFormedRecs rest

def exceptJoin {α : Type} : Except α α → α
  | Except.ok a => a
  | Except.error a => a

theorem tleChunks_join :
    ∀ (lines : List String) (acc : List SatRec),
      exceptJoin (tleChunks lines acc) = acc ++ wellFormedRecs lines := by
  intro lines
  induction lines using wellFormedRecs.induct with
  | case1 =>
    intro acc
    simp [tleChunks, wellFormedRecs, exceptJoin]
  | case2 n =>
    intro acc
    by_cases hn : n = "" <;>
      simp [tleChunks, wellFormedRecs, exceptJoin, hn]
  | case3 n m =>
    intro acc
    by_cases hn : n = "" <;>
      simp [tleChunks, wellFormedRecs, exceptJoin, hn]
  | case4 n l1 l2 rest ih =>
    intro acc
    by_cases hn : n = ""
    · simp [tleChunks, wellFormedRecs, hn, ih]
    · simp [tleChunks, wellFormedRecs, hn, ih]

/-- Claim C2 counterexample: a catalog response consisting of the single
line `"A"` (a name line whose element lines are missing) throws mid-parse
after the catalog has been cleared, so the previous catalog is _not_
retained on this parse failure — the state ends up empty. -/
theorem claim2_catalog_counterexample :
    fetchTLEs [mkSatRec "X" "1" "2"] (some "A") = [] ∧
    fetchTLEs [mkSatRec "X" "1" "2"] (some "A") ≠ [mkSatRec "X" "1" "2"] := by
  constructor
  · rfl
  · decide

/-- Claim C2 (amended): on a network failure the previous catalog is
retained unchanged; on a successfully parsed response the catalog is
replaced wholesale by the parse result; and after any response the
resulting catalog is independent of the previous one — it consists solely
of records parsed from the new text, so old and new entries are never
mixed (on a mid-parse throw the old catalog is lost, not retained, and the
state holds the prefix of new records parsed before the throw). -/
theorem claim2_catalog_replacement :
    ∀ (prev : List SatRec) (net : Option String),
      (net = none → fetchTLEs prev net = prev) ∧
      (∀ (text : String) (recs : List SatRec), net = some text →
        tleChunks (jsSplit text '\n') [] = Except.ok recs →
        fetchTLEs prev net = recs) ∧
      (∀ (text : String) (prev2 : List SatRec),
        fetchTLEs prev (some text) = fetchTLEs prev2 (some text)) := by
  intro prev net
  refine ⟨?_, ?_, ?_⟩
  · intro hnet
    rw [hnet]
    rfl
  · intro text recs hnet hok
    rw [hnet]
    simp [fetchTLEs, hok]
  · intro text prev2
    rfl

theorem claim2_catalog_replacement_witness :
    fetchTLEs [mkSatRec "X" "1" "2"] none = [mkSatRec "X" "1" "2"] ∧
    fetchTLEs [] (some "S\nA\nB") = [mkSatRec "S" "A" "B"] :=
  ⟨(claim2_catalog_replacement [mkSatRec "X" "1" "2"] none).1 rfl,
   (claim2_catalog_replacement [] (some "S\nA\nB")).2.1 "S\nA\nB"
     [mkSatRec "S" "A" "B"] rfl rfl⟩

/-- Claim C3: for every retrieved catalog text, the parse yields exactly
one OrbitalObject record per well-formed triplet (nonblank name line with
both element lines present); a malformed triplet — blank name line, or
name line whose element lines are missing — contributes no record, and all
well-formed triplets of the text are represented.  (`twoline2satrec` is an
external capability and is modelled as total: it does not throw on
unparseable element line contents.) -/
theorem claim3_malformed_triplet_dropped :
    ∀ (prev : List SatRec) (text : String),
      fetchTLEs prev (some text) = wellFormedRecs (jsSplit text '\n') := by
  intro prev text
  have h := tleChunks_join (jsSplit text '\n') []
  rw [List.nil_append] at h
  cases htl : tleChunks (jsSplit text '\n') [] with
  | ok recs =>
    rw [htl] at h
    simp only [exceptJoin] at h
    simp [fetchTLEs, htl, h]
  | error recs =>
    rw [htl] at h
    simp only [exceptJoin] at h
    simp [fetchTLEs, htl, h]

example :
    fetchTLEs [] (some "AAA\n1 x\n2 x\nBBB") = [mkSatRec "AAA" "1 x" "2 x"] := by
  decide

/-! ## Terrain CSV parsing (`parseHorizonCsv`, skyrfi.js lines 143–153) -/

/-- Digit scanner for the `parseFloat` model: accumulates a value and a
digit count, returning the unconsumed rest. -/
def takeDigits : ℕ → ℕ → List Char → ℕ × ℕ × List Char
  | v, k, [] => (v, k, [])
  | v, k, c :: cs =>
    if c.isDigit then takeDigits (10 * v + (c.toNat - 48)) (k + 1) cs
    else (v, k, c :: cs)

/-- A model of the runtime's `parseFloat` restricted to plain decimal
notation: optional leading whitespace and sign, integer digits, optional
fractional digits; trailing garbage is ignored as in JavaScript, and
`none` models `NaN` (no parseable numeric prefix). -/
def parseFloatQ (s : String) : Option ℚ :=
  let cs := s.data.dropWhile isWSp
  let sn : ℚ × List Char :=
    match cs with
    | '-' :: t => (-1, t)
    | '+' :: t => (1, t)
    | _ => (1, cs)
  let ip := takeDigits 0 0 sn.2
  let fp :=
    match ip.2.2 with
    | '.' :: t => takeDigits 0 0 t
    | _ => (0, 0, ([] : List Char))
  if ip.2.1 = 0 ∧ fp.2.1 = 0 then none
  else some (sn.1 * ((ip.1 : ℚ) + (fp.1 : ℚ) / (10 : ℚ) ^ fp.2.1))

/-- One stored horizon sample as parsed from a kept CSV row: `none` in a
component models the `NaN` produced by `parseFloat` on a non-numeric
field. -/
structure RawSample where
  a : Option ℚ
  e : Option ℚ
deriving DecidableEq

/-- Comparator for the `sort((a, b) => a.a - b.a)` call (skyrfi.js line
150).  On numeric keys this is exactly the ascending order that comparator
induces.  On a `NaN` key (`none`) the JavaScript comparator itself returns
`NaN` (coerced to 0 by SortCompare), making it inconsistent, and the
resulting array order is implementation-defined — even between numeric
keys separated by a `NaN`.  The model must still be a function, so it
fixes one totalisation (`none` first); every ordering theorem below is
therefore guarded by an all-numeric hypothesis, under which this
comparator coincides with the program's, and only order-insensitive
consequences (permutation, singleton lists) are stated otherwise. -/
def sampLe (x y : RawSample) : Bool :=
  match x.a, y.a with
  | none, _ => true
  | some _, none => false
  | some p, some q => decide (p ≤ q)

/-- The kept rows of the CSV text, in input order: row 1 (the header) is
skipped, and a row is kept iff it splits into at least three
comma-separated fields; column 2 is the azimuth and column 3 the
elevation, both through `parseFloat` (skyrfi.js lines 146–149). -/
def keptRows (text : String) : List RawSample :=
  ((jsSplit text '\n').drop 1).filterMap (fun line =>
    let p := jsSplit line ','
    if 3 ≤ p.length then
      some ⟨parseFloatQ (p.getD 1 ""), parseFloatQ (p.getD 2 "")⟩
    else none)

/-- `parseHorizonCsv(text)` (skyrfi.js lines 143–153): the kept rows
sorted by azimuth; the parallel arrays `SK_STATE.horizon.az`/`alt` are the
component projections of this list.  When every kept azimuth is numeric
the comparator is consistent and (both sorts being stable) this
`mergeSort` equals the JavaScript `Array.prototype.sort` result; with a
`NaN` azimuth present the engine's order is implementation-defined and
only the permutation-level consequences of this definition are faithful
to the program. -/
def parseHorizonCsv (text : String) : List RawSample :=
  (keptRows text).mergeSort sampLe

/-- The shared engine state `SK_STATE` (skyrfi.js lines 61–66). -/
structure SkyState where
  satRecords : List SatRec
  planes : PlanesMap
  horizonSamples : List RawSample

/-- The profile assignment performed by `parseHorizonCsv` (skyrfi.js lines
151–152): the stored profile is wholly replaced. -/
def setHorizon (st : SkyState) (text : String) : SkyState :=
  { st with horizonSamples := parseHorizonCsv text }

theorem sampLe_trans :
    ∀ a b c : RawSample, sampLe a b = true → sampLe b c = true →
      sampLe a c = true := by
  intro a b c hab hbc
  rcases a with ⟨xa, _⟩
  rcases b with ⟨xb, _⟩
  rcases c with ⟨xc, _⟩
  cases xa with
  | none => rfl
  | some p =>
    cases xb with
    | none => exact absurd hab (by simp [sampLe])
    | some q =>
      cases xc with
      | none => exact absurd hbc (by simp [sampLe])
      | some r =>
        simp only [sampLe, decide_eq_true_eq] at hab hbc ⊢
        exact le_trans hab hbc

theorem sampLe_total :
    ∀ a b : RawSample, (sampLe a b || sampLe b a) = true := by
  intro a b
  rcases a with ⟨xa, _⟩
  rcases b with ⟨xb, _⟩
  cases xa with
  | none => simp [sampLe]
  | some p =>
    cases xb with
    | none => simp [sampLe]
    | some q =>
      simp only [sampLe, Bool.or_eq_true, decide_eq_true_eq]
      exact le_total p q

/-- Claim C9 counterexample: the row `"x,abc,1"` has three comma-separated
fields, so the parser keeps it even though its azimuth field is not
numeric — the resulting profile contains a sample whose azimuth is the
`NaN` of `parseFloat("abc")`, contradicting the claim that every sample of
the profile has a parseable numeric azimuth. -/
theorem claim9_horizon_csv_counterexample :
    parseHorizonCsv "h\nx,abc,1" = [⟨none, some 1⟩] := by
  have hk : keptRows "h\nx,abc,1" = [⟨parseFloatQ "abc", parseFloatQ "1"⟩] := rfl
  have habc : parseFloatQ "abc" = none := rfl
  have h1 : parseFloatQ "1" =
      some ((1 : ℚ) * (((1 : ℕ) : ℚ) + ((0 : ℕ) : ℚ) / (10 : ℚ) ^ (0 : ℕ))) :=
    rfl
  rw [parseHorizonCsv, hk, habc, h1]
  have hval : (1 : ℚ) * (((1 : ℕ) : ℚ) + ((0 : ℕ) : ℚ) / (10 : ℚ) ^ (0 : ℕ)) =
      1 := by norm_num
  rw [hval]
  simp [List.mergeSort]

/-- Claim C9 (amended): the loader skips the header row, wholly replaces
the stored profile, keeps exactly the rows with at least three
comma-separated fields (dropping the shorter ones), and the stored
profile is a permutation of those kept rows; when every kept azimuth is
numeric the comparator `(a, b) => a.a - b.a` is consistent and the
samples are stored in ascending azimuth order regardless of input order.
A kept row's azimuth or elevation is the `parseFloat` of its field and
may be `NaN` (non-numeric fields are not dropped); with a `NaN` azimuth
present the comparator is inconsistent and the engine's resulting order
is implementation-defined, so no ordering is asserted there. -/
theorem claim9_horizon_csv :
    (∀ (st st2 : SkyState) (text : String),
      (setHorizon st text).horizonSamples = parseHorizonCsv text ∧
      (setHorizon st text).horizonSamples =
        (setHorizon st2 text).horizonSamples) ∧
    (∀ text : String, (parseHorizonCsv text).Perm (keptRows text)) ∧
    (∀ text : String, (∀ s ∈ keptRows text, s.a ≠ none) →
      (parseHorizonCsv text).Pairwise
        (fun x y => ∀ p q : ℚ, x.a = some p → y.a = some q → p ≤ q)) := by
  refine ⟨?_, ?_, ?_⟩
  · intro st st2 text
    exact ⟨rfl, rfl⟩
  · intro text
    exact List.mergeSort_perm (keptRows text) sampLe
  · intro text _hnum
    have hs := @List.sorted_mergeSort RawSample sampLe
      (fun a b c hab hbc => sampLe_trans a b c hab hbc)
      (fun a b => sampLe_total a b) (keptRows text)
    refine hs.imp ?_
    intro x y hxy p q hx hy
    rcases x with ⟨xa, _⟩
    rcases y with ⟨ya, _⟩
    simp only at hx hy
    rw [hx, hy] at hxy
    simpa [sampLe] using hxy

theorem claim9_horizon_csv_witness :
    (parseHorizonCsv "h\na,10,1\nb,5,2").Pairwise
      (fun x y => ∀ p q : ℚ, x.a = some p → y.a = some q → p ≤ q) :=
  claim9_horizon_csv.2.2 "h\na,10,1\nb,5,2" (by decide)
